import Mathlib

set_option maxRecDepth 8000

namespace MigrateToSqlserver

/-- Single quote character (ASCII 39), used to build the SQL literal patterns. -/
def sq : Char := Char.ofNat 39

/-- ASCII whitespace stripped by Python str.strip (the model is restricted to ASCII input). -/
def isPySpace (c : Char) : Bool :=
  c == ' ' || c == '\t' || c == '\n' || c == '\r' || c == '\x0b' || c == '\x0c'

/-- Word characters of the regex word class, restricted to ASCII. -/
def isWordChar (c : Char) : Bool := c.isAlphanum || c == '_'

/-- Generic left-to-right scan-and-replace driver shared by all substitutions of
convert_sqlite_to_sqlserver.  At each position the step function either matches,
yielding the text to emit plus the input remaining after the consumed match, or
fails and the scan advances one character.  Fuel bounds the recursion; it is
always instantiated with the input length, which suffices because every match
consumes at least one character. -/
def scanGo (stepf : List Char → Option (List Char × List Char)) : Nat → List Char → List Char
  | 0, s => s
  | _ + 1, [] => []
  | fuel + 1, c :: rest =>
    match stepf (c :: rest) with
    | some (out, tail) => out ++ scanGo stepf fuel tail
    | none => c :: scanGo stepf fuel rest

/-- Scan with exactly enough fuel for the input. -/
def scanAll (stepf : List Char → Option (List Char × List Char)) (s : List Char) : List Char :=
  scanGo stepf s.length s

/-- Step function of a literal-pattern replacement: the semantics of Python
str.replace and of re.sub on a metacharacter-free pattern (leftmost,
non-overlapping, continue after the consumed text). -/
def repStep (pat repl s : List Char) : Option (List Char × List Char) :=
  if pat.isPrefixOf s then some (repl, s.drop pat.length) else none

/-- Semantics of content.replace(pat, repl), also of re.sub with a literal pattern. -/
def pyReplace (pat repl s : List Char) : List Char := scanAll (repStep pat repl) s

/-- Scan for the first statement terminator, as matched by the non-greedy regex
fragment dot-star-lazy-semicolon: without DOTALL a newline blocks the match.
Returns the input remaining after the terminator. -/
def findStmtEnd (dotall : Bool) : List Char → Option (List Char)
  | [] => none
  | c :: rest =>
    if c == ';' then some rest
    else if !dotall && c == '\n' then none
    else findStmtEnd dotall rest

/-- Step function of the deleting substitutions of the converter: the pattern
literal followed non-greedily by characters up to a statement terminator. -/
def delStep (pat : List Char) (dotall : Bool) (s : List Char) : Option (List Char × List Char) :=
  if pat.isPrefixOf s then
    match findStmtEnd dotall (s.drop pat.length) with
    | some tail => some ([], tail)
    | none => none
  else none

/-- Semantics of re.sub deleting the pattern followed non-greedily by a terminator. -/
def reSubDel (pat : List Char) (dotall : Bool) (s : List Char) : List Char :=
  scanAll (delStep pat dotall) s

/-- Literal part of the insert-statement pattern, including the trailing space. -/
def insPat : List Char := "INSERT INTO ".toList

/-- Step function of rule 8: INSERT INTO followed by a greedy nonempty word-character
run, replaced by the same text with the run bracket-quoted. -/
def insStep (s : List Char) : Option (List Char × List Char) :=
  if insPat.isPrefixOf s then
    let t := s.drop insPat.length
    let w := t.takeWhile isWordChar
    if w.isEmpty then none
    else some (insPat ++ '[' :: (w ++ [']']), t.dropWhile isWordChar)
  else none

/-- Rule 8: bracket-quote the identifier of insert statements. -/
def bracketInserts (s : List Char) : List Char := scanAll insStep s

def pragmaPat : List Char := "PRAGMA".toList

def beginPat : List Char := "BEGIN TRANSACTION;".toList

def commitPat : List Char := "COMMIT;".toList

def ctinePat : List Char := "CREATE TABLE IF NOT EXISTS".toList

def ctPat : List Char := "CREATE TABLE".toList

def ciPat : List Char := "CREATE INDEX".toList

def cuiPat : List Char := "CREATE UNIQUE INDEX".toList

/-- Quoted zero literal of rule 9. -/
def zeroPat : List Char := [sq, '0', sq]

/-- Quoted one literal of rule 9. -/
def onePat : List Char := [sq, '1', sq]

/-- Empty-quote pair of rule 10. -/
def emptyPat : List Char := [sq, sq]

def nullRepl : List Char := ['N', 'U', 'L', 'L']

/-- Replacement text of rule 4, the conditional-existence rewrite. -/
def ctineRepl : List Char :=
  "IF NOT EXISTS (SELECT * FROM sys.objects WHERE object_id = OBJECT_ID(N".toList
    ++ sq :: "[dbo].[{table}]".toList ++ sq :: ") AND type in (N".toList
    ++ sq :: 'U' :: sq :: "))".toList ++ '\n' :: "CREATE TABLE".toList

/-- Rule 1: strip PRAGMA directives. -/
def stripPragmas (s : List Char) : List Char := reSubDel pragmaPat false s

/-- Rule 2: strip transaction-begin markers. -/
def stripBeginTransaction (s : List Char) : List Char := pyReplace beginPat [] s

/-- Rule 3: strip transaction-commit markers. -/
def stripCommit (s : List Char) : List Char := pyReplace commitPat [] s

/-- Rule 4: rewrite conditional create-table declarations. -/
def rewriteCtIfNotExists (s : List Char) : List Char := pyReplace ctinePat ctineRepl s

/-- Rule 5: delete create-table statements (DOTALL). -/
def deleteCreateTables (s : List Char) : List Char := reSubDel ctPat true s

/-- Rule 6: delete create-index statements (single-line match). -/
def deleteCreateIndexes (s : List Char) : List Char := reSubDel ciPat false s

/-- Rule 7: delete create-unique-index statements (single-line match). -/
def deleteCreateUniqueIndexes (s : List Char) : List Char := reSubDel cuiPat false s

/-- Rule 9, first half: quoted zero becomes bare zero. -/
def boolZero (s : List Char) : List Char := pyReplace zeroPat ['0'] s

/-- Rule 9, second half: quoted one becomes bare one. -/
def boolOne (s : List Char) : List Char := pyReplace onePat ['1'] s

/-- Rule 10: empty-string literal becomes the null token. -/
def emptyToNull (s : List Char) : List Char := pyReplace emptyPat nullRepl s

/-- Rules 1-10 of the converter, in source order. -/
def applySubstitutions (s : List Char) : List Char :=
  emptyToNull (boolOne (boolZero (bracketInserts (deleteCreateUniqueIndexes
    (deleteCreateIndexes (deleteCreateTables (rewriteCtIfNotExists
      (stripCommit (stripBeginTransaction (stripPragmas s))))))))))

/-- Split on newline, exactly as Python str.split with a newline separator. -/
def splitNl : List Char → List (List Char)
  | [] => [[]]
  | c :: rest =>
    if c == '\n' then [] :: splitNl rest
    else
      match splitNl rest with
      | [] => [[c]]
      | l :: ls => (c :: l) :: ls

/-- Strip trailing ASCII whitespace. -/
def rstripSp (l : List Char) : List Char := (l.reverse.dropWhile isPySpace).reverse

/-- Python str.strip, restricted to ASCII whitespace. -/
def pyStrip (l : List Char) : List Char := (rstripSp l).dropWhile isPySpace

/-- SQL comment marker. -/
def dashDash : List Char := ['-', '-']

/-- Batch-separator token emitted after terminated statements. -/
def goLine : List Char := ['G', 'O']

/-- Python line.endswith of the statement terminator. -/
def endsWithSemi (l : List Char) : Bool :=
  match l.getLast? with
  | some c => c == ';'
  | none => false

/-- Line-oriented post-pass of the converter: strip each line, drop blank and
comment lines, and emit a batch-separator line after each remaining line that
ends with a statement terminator. -/
def processLines : List (List Char) → List (List Char)
  | [] => []
  | l :: ls =>
    if (pyStrip l).isEmpty || dashDash.isPrefixOf (pyStrip l) then processLines ls
    else if endsWithSemi (pyStrip l) then pyStrip l :: goLine :: processLines ls
    else pyStrip l :: processLines ls

/-- Join lines with newlines, as the Python newline join. -/
def joinNl : List (List Char) → List Char
  | [] => []
  | [l] => l
  | l :: l' :: ls => l ++ '\n' :: joinNl (l' :: ls)

/-- Lines written to the output file by convert_sqlite_to_sqlserver. -/
def convertLines (content : List Char) : List (List Char) :=
  processLines (splitNl (applySubstitutions content))

/-- Content transformation performed by convert_sqlite_to_sqlserver: the output
file holds exactly this text for the given input file text. -/
def convert_sqlite_to_sqlserver (content : List Char) : List Char :=
  joinNl (convertLines content)

/-- Rules 1-10 with rule 4 removed, the comparison pipeline named by the
dead-code claim about the conditional-existence rewrite. -/
def applySubstitutionsNoRule4 (s : List Char) : List Char :=
  emptyToNull (boolOne (boolZero (bracketInserts (deleteCreateUniqueIndexes
    (deleteCreateIndexes (deleteCreateTables
      (stripCommit (stripBeginTransaction (stripPragmas s)))))))))

/-- Converter with rule 4 removed, the comparison pipeline of the dead-code claim. -/
def convertNoRule4 (content : List Char) : List Char :=
  joinNl (processLines (splitNl (applySubstitutionsNoRule4 content)))

/-- Occurrence test: does the pattern occur as a contiguous run inside the text. -/
def containsSeq (pat : List Char) : List Char → Bool
  | [] => pat.isPrefixOf []
  | c :: rest => pat.isPrefixOf (c :: rest) || containsSeq pat rest

/-- Observable events of import_to_sqlserver: console prints and the two
subprocess invocations (docker cp, then sqlcmd inside the container). -/
inductive ImportEv where
  | printMsg : List Char → ImportEv
  | copyToContainer : ImportEv
  | runSqlcmd : ImportEv

def importingMsg : List Char := '\n' :: "🔄 Importing data into SQL Server...".toList

def successMsg : List Char := "✅ Data imported successfully!".toList

def importFailPre : List Char := "❌ Import failed: ".toList

/-- Model of import_to_sqlserver.  The two subprocess invocations are abstracted
by their exit statuses and by the captured standard error of the second; the
trace lists prints and invocations in order, and the result is none exactly when
the checked copy raises CalledProcessError, aborting before the client runs. -/
def import_to_sqlserver (copyExit clientExit : Int) (clientStderr : List Char) :
    List ImportEv × Option Bool :=
  if copyExit ≠ 0 then ([.printMsg importingMsg, .copyToContainer], none)
  else if clientExit = 0 then
    ([.printMsg importingMsg, .copyToContainer, .runSqlcmd, .printMsg successMsg], some true)
  else
    ([.printMsg importingMsg, .copyToContainer, .runSqlcmd,
      .printMsg (importFailPre ++ clientStderr)], some false)

/-- Number of database-client invocations in a trace. -/
def countRunEv : List ImportEv → Nat
  | [] => 0
  | ImportEv.runSqlcmd :: rest => countRunEv rest + 1
  | _ :: rest => countRunEv rest

/-- End-to-end input document of the scenario claim. -/
def docC1 : List Char :=
  "PRAGMA foo;".toList ++ '\n' :: "BEGIN TRANSACTION;".toList
    ++ '\n' :: "CREATE TABLE T (a int);".toList
    ++ '\n' :: ("INSERT INTO T VALUES(".toList ++ sq :: '0' :: sq :: ");".toList)
    ++ '\n' :: "COMMIT;".toList

/-- Shrinking step functions: a match on a nonempty input leaves a remainder no
longer than the input minus its first character. -/
def ShrinkStep (stepf : List Char → Option (List Char × List Char)) : Prop :=
  ∀ c rest out tail, stepf (c :: rest) = some (out, tail) → tail.length ≤ rest.length

theorem scanGo_eq_scanAll (stepf : List Char → Option (List Char × List Char))
    (hs : ShrinkStep stepf) :
    ∀ fuel s, s.length ≤ fuel → scanGo stepf fuel s = scanAll stepf s := by
  intro fuel
  induction fuel using Nat.strong_induction_on with
  | _ fuel ih =>
    intro s hl
    cases fuel with
    | zero =>
      cases s with
      | nil => rfl
      | cons c rest => simp at hl
    | succ f =>
      cases s with
      | nil => rfl
      | cons c rest =>
        have hr : rest.length ≤ f := by simpa using hl
        cases hst : stepf (c :: rest) with
        | none =>
          have h1 : scanGo stepf f rest = scanAll stepf rest :=
            ih f (Nat.lt_succ_self f) rest hr
          calc scanGo stepf (f + 1) (c :: rest) = c :: scanGo stepf f rest := by
                simp [scanGo, hst]
            _ = c :: scanGo stepf rest.length rest := by rw [h1]; rfl
            _ = scanAll stepf (c :: rest) := by simp [scanAll, scanGo, hst]
        | some p =>
          obtain ⟨out, tail⟩ := p
          have htl : tail.length ≤ rest.length := hs c rest out tail hst
          have h1 : scanGo stepf f tail = scanAll stepf tail :=
            ih f (Nat.lt_succ_self f) tail (le_trans htl hr)
          have h2 : scanGo stepf rest.length tail = scanAll stepf tail :=
            ih rest.length (Nat.lt_succ_of_le hr) tail htl
          calc scanGo stepf (f + 1) (c :: rest) = out ++ scanGo stepf f tail := by
                simp [scanGo, hst]
            _ = out ++ scanGo stepf rest.length tail := by rw [h1, h2]
            _ = scanAll stepf (c :: rest) := by simp [scanAll, scanGo, hst]

theorem scanAll_cons_none (stepf : List Char → Option (List Char × List Char))
    {c : Char} {rest : List Char} (hst : stepf (c :: rest) = none) :
    scanAll stepf (c :: rest) = c :: scanAll stepf rest := by
  simp [scanAll, scanGo, hst]

theorem scanAll_cons_some (stepf : List Char → Option (List Char × List Char))
    (hs : ShrinkStep stepf) {c : Char} {rest out tail : List Char}
    (hst : stepf (c :: rest) = some (out, tail)) :
    scanAll stepf (c :: rest) = out ++ scanAll stepf tail := by
  have htl : tail.length ≤ rest.length := hs c rest out tail hst
  calc scanAll stepf (c :: rest) = out ++ scanGo stepf rest.length tail := by
        simp [scanAll, scanGo, hst]
    _ = out ++ scanAll stepf tail := by rw [scanGo_eq_scanAll stepf hs rest.length tail htl]

theorem scanAll_eq_self (stepf : List Char → Option (List Char × List Char)) :
    ∀ s : List Char, (∀ i, i < s.length → stepf (s.drop i) = none) → scanAll stepf s = s := by
  intro s
  induction s with
  | nil => intro _; rfl
  | cons c rest ih =>
    intro h
    have h0 : stepf (c :: rest) = none := h 0 (by simp)
    rw [scanAll_cons_none stepf h0]
    have : scanAll stepf rest = rest :=
      ih fun i hi => h (i + 1) (by simpa using Nat.succ_lt_succ hi)
    rw [this]

theorem scanAll_append (stepf : List Char → Option (List Char × List Char)) :
    ∀ a x : List Char, (∀ i, i < a.length → stepf ((a ++ x).drop i) = none) →
      scanAll stepf (a ++ x) = a ++ scanAll stepf x := by
  intro a
  induction a with
  | nil => intro x _; simp
  | cons c a2 ih =>
    intro x h
    have h0 : stepf (c :: (a2 ++ x)) = none := h 0 (by simp)
    have hrec : scanAll stepf (a2 ++ x) = a2 ++ scanAll stepf x :=
      ih x fun i hi => h (i + 1) (by simpa using Nat.succ_lt_succ hi)
    calc scanAll stepf ((c :: a2) ++ x) = c :: scanAll stepf (a2 ++ x) :=
          scanAll_cons_none stepf h0
      _ = (c :: a2) ++ scanAll stepf x := by rw [hrec]; rfl

theorem containsSeq_false_prefix (pat : List Char) :
    ∀ s : List Char, containsSeq pat s = false →
      ∀ i, i < s.length → pat.isPrefixOf (s.drop i) = false := by
  intro s
  induction s with
  | nil => intro _ i hi; simp at hi
  | cons c rest ih =>
    intro h i hi
    simp only [containsSeq, Bool.or_eq_false_iff] at h
    cases i with
    | zero => exact h.1
    | succ i => exact ih h.2 i (Nat.lt_of_succ_lt_succ hi)

theorem containsSeq_of_prefix_drop (pat : List Char) (hne : pat ≠ []) :
    ∀ (s : List Char) (i : Nat), pat.isPrefixOf (s.drop i) = true → containsSeq pat s = true := by
  intro s
  induction s with
  | nil =>
    intro i h
    exfalso
    apply hne
    have hp : pat <+: ([] : List Char) := List.isPrefixOf_iff_prefix.mp (by simpa using h)
    simpa using hp
  | cons c rest ih =>
    intro i h
    cases i with
    | zero => simp only [containsSeq, Bool.or_eq_true]; exact Or.inl (by simpa using h)
    | succ i =>
      have := ih i (by simpa using h)
      simp only [containsSeq, Bool.or_eq_true]
      exact Or.inr this

theorem containsSeq_mono_pat {p q : List Char} (hpq : p.isPrefixOf q = true) :
    ∀ s : List Char, containsSeq q s = true → containsSeq p s = true := by
  intro s
  induction s with
  | nil =>
    intro h
    simp only [containsSeq] at h ⊢
    have h1 : q <+: ([] : List Char) := List.isPrefixOf_iff_prefix.mp h
    have h2 : p <+: q := List.isPrefixOf_iff_prefix.mp hpq
    exact List.isPrefixOf_iff_prefix.mpr (h2.trans h1)
  | cons c rest ih =>
    intro h
    simp only [containsSeq, Bool.or_eq_true] at h ⊢
    rcases h with h | h
    · exact Or.inl (List.isPrefixOf_iff_prefix.mpr
        ((List.isPrefixOf_iff_prefix.mp hpq).trans (List.isPrefixOf_iff_prefix.mp h)))
    · exact Or.inr (ih h)

theorem shrink_repStep (pat repl : List Char) (hne : pat ≠ []) : ShrinkStep (repStep pat repl) := by
  intro c rest out tail hst
  simp only [repStep] at hst
  split at hst
  · injection hst with h1
    injection h1 with hout htail
    subst htail
    have hp : 1 ≤ pat.length := List.length_pos.mpr hne
    simp only [List.length_drop, List.length_cons]
    omega
  · cases hst

theorem findStmtEnd_length (dotall : Bool) :
    ∀ l tail, findStmtEnd dotall l = some tail → tail.length < l.length := by
  intro l
  induction l with
  | nil => intro tail h; simp [findStmtEnd] at h
  | cons c rest ih =>
    intro tail h
    simp only [findStmtEnd] at h
    split at h
    · cases h; simp
    · split at h
      · cases h
      · have := ih tail h
        simp only [List.length_cons]
        omega

theorem shrink_delStep (pat : List Char) (dotall : Bool) (hne : pat ≠ []) :
    ShrinkStep (delStep pat dotall) := by
  intro c rest out tail hst
  simp only [delStep] at hst
  split at hst
  · cases hfe : findStmtEnd dotall ((c :: rest).drop pat.length) with
    | none => rw [hfe] at hst; cases hst
    | some t =>
      rw [hfe] at hst
      cases hst
      have hlt := findStmtEnd_length dotall _ _ hfe
      have hp : 1 ≤ pat.length := List.length_pos.mpr hne
      simp only [List.length_drop, List.length_cons] at hlt
      omega
  · cases hst

theorem shrink_insStep : ShrinkStep insStep := by
  intro c rest out tail hst
  simp only [insStep] at hst
  split at hst
  · split at hst
    · cases hst
    · cases hst
      have h1 : (((c :: rest).drop insPat.length).dropWhile isWordChar).length ≤
          ((c :: rest).drop insPat.length).length :=
        ((c :: rest).drop insPat.length).dropWhile_suffix isWordChar |>.length_le
      simp only [List.length_drop, List.length_cons] at h1 ⊢
      have hp : 1 ≤ insPat.length := by decide
      omega
  · cases hst

theorem pyReplace_eq_self (pat repl s : List Char) (h : containsSeq pat s = false) :
    pyReplace pat repl s = s := by
  apply scanAll_eq_self
  intro i hi
  have hp := containsSeq_false_prefix pat s h i hi
  simp [repStep, hp]

theorem reSubDel_eq_self (pat : List Char) (dotall : Bool) (s : List Char)
    (h : containsSeq pat s = false) : reSubDel pat dotall s = s := by
  apply scanAll_eq_self
  intro i hi
  have hp := containsSeq_false_prefix pat s h i hi
  simp [delStep, hp]

theorem no_prefix_in_left (pat a x : List Char) (hne : pat ≠ [])
    (h : containsSeq pat (a ++ pat.dropLast) = false) :
    ∀ i, i < a.length → pat.isPrefixOf ((a ++ (pat ++ x)).drop i) = false := by
  intro i hi
  cases hb : pat.isPrefixOf ((a ++ (pat ++ x)).drop i) with
  | false => rfl
  | true =>
    exfalso
    have hplen : 1 ≤ pat.length := List.length_pos.mpr hne
    have hdec : a ++ (pat ++ x) = (a ++ pat.dropLast) ++ (pat.getLast hne :: x) := by
      conv_lhs => rw [← List.dropLast_append_getLast hne]
      simp [List.append_assoc]
    rw [hdec] at hb
    have hprefix : pat <+: ((a ++ pat.dropLast) ++ (pat.getLast hne :: x)).drop i :=
      List.isPrefixOf_iff_prefix.mp hb
    have hulen : (a ++ pat.dropLast).length = a.length + (pat.length - 1) := by
      simp [List.length_append, List.length_dropLast]
    have hiu : i ≤ (a ++ pat.dropLast).length := by omega
    have hdrop : ((a ++ pat.dropLast) ++ (pat.getLast hne :: x)).drop i =
        (a ++ pat.dropLast).drop i ++ (pat.getLast hne :: x) := by
      rw [List.drop_append_eq_append_drop]
      have hz : i - (a ++ pat.dropLast).length = 0 := by omega
      rw [hz]
      rfl
    rw [hdrop] at hprefix
    have hlen2 : pat.length ≤ ((a ++ pat.dropLast).drop i).length := by
      simp only [List.length_drop]
      omega
    have hpu : pat <+: (a ++ pat.dropLast).drop i := by
      have htake : List.take pat.length ((a ++ pat.dropLast).drop i ++ (pat.getLast hne :: x)) =
          List.take pat.length ((a ++ pat.dropLast).drop i) :=
        List.take_append_of_le_length hlen2
      exact List.prefix_iff_eq_take.mpr ((List.prefix_iff_eq_take.mp hprefix).trans htake)
    have hcontains : containsSeq pat (a ++ pat.dropLast) = true :=
      containsSeq_of_prefix_drop pat hne _ i (List.isPrefixOf_iff_prefix.mpr hpu)
    rw [h] at hcontains
    cases hcontains

theorem pyReplace_first_occ (pat repl a b : List Char) (hne : pat ≠ [])
    (h : containsSeq pat (a ++ pat.dropLast) = false) :
    pyReplace pat repl (a ++ (pat ++ b)) = a ++ (repl ++ pyReplace pat repl b) := by
  unfold pyReplace
  rw [scanAll_append _ a (pat ++ b) (fun i hi => by
    have hp := no_prefix_in_left pat a b hne h i hi
    simp [repStep, hp])]
  cases pat with
  | nil => exact absurd rfl hne
  | cons p ps =>
    have hpre : (p :: ps).isPrefixOf ((p :: ps) ++ b) = true :=
      List.isPrefixOf_iff_prefix.mpr (List.prefix_append _ _)
    have hst : repStep (p :: ps) repl (p :: (ps ++ b)) = some (repl, b) := by
      simp only [repStep, List.cons_append] at hpre ⊢
      rw [if_pos hpre]
      have hd : (p :: (ps ++ b)).drop (p :: ps).length = b := List.drop_left (p :: ps) b
      rw [hd]
    rw [show (p :: ps) ++ b = p :: (ps ++ b) from rfl,
      scanAll_cons_some _ (shrink_repStep (p :: ps) repl hne) hst]

theorem findStmtEnd_dotall_through :
    ∀ mid post : List Char, (';' : Char) ∉ mid →
      findStmtEnd true (mid ++ ';' :: post) = some post := by
  intro mid
  induction mid with
  | nil => intro post _; simp [findStmtEnd]
  | cons c m ih =>
    intro post h
    have hc : (c == ';') = false :=
      beq_eq_false_iff_ne.mpr fun e => h (by simp [e])
    simp [findStmtEnd, hc]
    exact ih post fun hm => h (List.mem_cons_of_mem _ hm)

theorem processLines_mem :
    ∀ (ls : List (List Char)) (l : List Char), l ∈ processLines ls →
      l = goLine ∨ ∃ x, x ∈ ls ∧ l = pyStrip x ∧ (pyStrip x).isEmpty = false ∧
        dashDash.isPrefixOf (pyStrip x) = false := by
  intro ls
  induction ls with
  | nil => intro l h; simp [processLines] at h
  | cons y ys ih =>
    intro l h
    by_cases h1 : ((pyStrip y).isEmpty || dashDash.isPrefixOf (pyStrip y)) = true
    · rw [processLines, if_pos h1] at h
      rcases ih l h with hg | ⟨x, hx, he, hne, hdd⟩
      · exact Or.inl hg
      · exact Or.inr ⟨x, List.mem_cons_of_mem _ hx, he, hne, hdd⟩
    · have h2 := Bool.or_eq_false_iff.mp (Bool.not_eq_true _ |>.mp h1)
      rw [processLines, if_neg h1] at h
      by_cases h3 : endsWithSemi (pyStrip y) = true
      · rw [if_pos h3] at h
        simp only [List.mem_cons] at h
        rcases h with h | h | h
        · exact Or.inr ⟨y, List.mem_cons_self y ys, h, h2.1, h2.2⟩
        · exact Or.inl h
        · rcases ih l h with hg | ⟨x, hx, he, hne, hdd⟩
          · exact Or.inl hg
          · exact Or.inr ⟨x, List.mem_cons_of_mem _ hx, he, hne, hdd⟩
      · rw [if_neg h3] at h
        simp only [List.mem_cons] at h
        rcases h with h | h
        · exact Or.inr ⟨y, List.mem_cons_self y ys, h, h2.1, h2.2⟩
        · rcases ih l h with hg | ⟨x, hx, he, hne, hdd⟩
          · exact Or.inl hg
          · exact Or.inr ⟨x, List.mem_cons_of_mem _ hx, he, hne, hdd⟩

theorem processLines_adjacent :
    ∀ (ls : List (List Char)) (i : Nat) (l : List Char),
      (processLines ls)[i]? = some l → endsWithSemi l = true →
      (processLines ls)[i + 1]? = some goLine := by
  intro ls
  induction ls with
  | nil => intro i l h _; simp [processLines] at h
  | cons y ys ih =>
    intro i l h hsemi
    by_cases h1 : ((pyStrip y).isEmpty || dashDash.isPrefixOf (pyStrip y)) = true
    · rw [processLines, if_pos h1] at h ⊢
      exact ih i l h hsemi
    · rw [processLines, if_neg h1] at h ⊢
      by_cases h3 : endsWithSemi (pyStrip y) = true
      · rw [if_pos h3] at h ⊢
        match i with
        | 0 => simp
        | 1 =>
          exfalso
          simp only [List.getElem?_cons_succ, List.getElem?_cons_zero] at h
          cases h
          exact absurd hsemi (by decide)
        | n + 2 =>
          simp only [List.getElem?_cons_succ] at h ⊢
          exact ih n l h hsemi
      · rw [if_neg h3] at h ⊢
        match i with
        | 0 =>
          exfalso
          simp only [List.getElem?_cons_zero] at h
          cases h
          exact absurd hsemi h3
        | n + 1 =>
          simp only [List.getElem?_cons_succ] at h ⊢
          exact ih n l h hsemi

theorem head_dropWhile_not (p : Char → Bool) :
    ∀ (l : List Char) (c : Char), (l.dropWhile p).head? = some c → p c = false := by
  intro l
  induction l with
  | nil => intro c h; simp [List.dropWhile] at h
  | cons a rest ih =>
    intro c h
    by_cases hp : p a = true
    · rw [List.dropWhile_cons_of_pos hp] at h
      exact ih c h
    · rw [List.dropWhile_cons_of_neg hp] at h
      simp only [List.head?_cons, Option.some.injEq] at h
      cases h
      exact Bool.not_eq_true _ |>.mp hp

theorem getLast_dropWhile (p : Char → Bool) :
    ∀ l : List Char, l.dropWhile p ≠ [] → (l.dropWhile p).getLast? = l.getLast? := by
  intro l
  induction l with
  | nil => intro h; simp [List.dropWhile] at h
  | cons a rest ih =>
    intro h
    by_cases hp : p a = true
    · rw [List.dropWhile_cons_of_pos hp] at h ⊢
      have hrest : rest ≠ [] := by
        intro e
        rw [e] at h
        simp [List.dropWhile] at h
      rw [ih h]
      cases rest with
      | nil => exact absurd rfl hrest
      | cons b t => simp [List.getLast?_cons_cons]
    · rw [List.dropWhile_cons_of_neg hp]

theorem pyStrip_head (l : List Char) (c : Char) (h : (pyStrip l).head? = some c) :
    isPySpace c = false :=
  head_dropWhile_not isPySpace (rstripSp l) c h

theorem pyStrip_getLast (l : List Char) (c : Char) (h : (pyStrip l).getLast? = some c) :
    isPySpace c = false := by
  have hne : pyStrip l ≠ [] := by
    intro e
    rw [e] at h
    simp at h
  have h1 : (pyStrip l).getLast? = (rstripSp l).getLast? := getLast_dropWhile isPySpace _ hne
  have h2 : (rstripSp l).getLast? = (l.reverse.dropWhile isPySpace).head? :=
    List.getLast?_reverse _
  rw [h1, h2] at h
  exact head_dropWhile_not isPySpace _ c h

theorem joinNl_ne_nil (l : List Char) (ls : List (List Char)) (h : l ≠ []) :
    joinNl (l :: ls) ≠ [] := by
  cases ls with
  | nil => simpa [joinNl] using h
  | cons m ms => simp [joinNl, h]

theorem emptyPre_false {c : Char} {r : List Char} (h : (sq == c) = false) :
    emptyPat.isPrefixOf (c :: r) = false := by
  simp [emptyPat, List.isPrefixOf, h]

theorem containsSeq_cons_false {c : Char} {r : List Char}
    (h : emptyPat.isPrefixOf (c :: r) = false) :
    containsSeq emptyPat (c :: r) = containsSeq emptyPat r := by
  simp [containsSeq, h]

theorem containsSeq_null_append (r : List Char) :
    containsSeq emptyPat (nullRepl ++ r) = containsSeq emptyPat r := by
  show containsSeq emptyPat ('N' :: 'U' :: 'L' :: 'L' :: r) = containsSeq emptyPat r
  rw [containsSeq_cons_false (emptyPre_false (by decide)),
    containsSeq_cons_false (emptyPre_false (by decide)),
    containsSeq_cons_false (emptyPre_false (by decide)),
    containsSeq_cons_false (emptyPre_false (by decide))]

theorem single_prefix_head {a : Char} {r : List Char} (h : List.isPrefixOf [a] r = true) :
    r.head? = some a := by
  cases r with
  | nil => simp [List.isPrefixOf] at h
  | cons d t =>
    simp only [List.isPrefixOf, Bool.and_true, beq_iff_eq] at h
    rw [h]
    rfl

theorem emptyStep_head_sq (fuel : Nat) (s : List Char)
    (h : (scanGo (repStep emptyPat nullRepl) fuel s).head? = some sq) : s.head? = some sq := by
  cases fuel with
  | zero => exact h
  | succ f =>
    cases s with
    | nil => simp [scanGo] at h
    | cons c rest =>
      cases hst : repStep emptyPat nullRepl (c :: rest) with
      | some p =>
        have hpre : emptyPat.isPrefixOf (c :: rest) = true := by
          simp only [repStep] at hst
          split at hst
          · assumption
          · cases hst
        have hc : c = sq := by
          simp only [emptyPat, List.isPrefixOf, Bool.and_eq_true, beq_iff_eq] at hpre
          exact hpre.1.symm
        rw [hc]
        rfl
      | none =>
        have hred : scanGo (repStep emptyPat nullRepl) (f + 1) (c :: rest) =
            c :: scanGo (repStep emptyPat nullRepl) f rest := by
          simp [scanGo, hst]
        rw [hred] at h
        simp only [List.head?_cons, Option.some.injEq] at h
        rw [h]
        rfl

theorem emptyScan_no_empty :
    ∀ (fuel : Nat) (s : List Char), s.length ≤ fuel →
      containsSeq emptyPat (scanGo (repStep emptyPat nullRepl) fuel s) = false := by
  intro fuel
  induction fuel using Nat.strong_induction_on with
  | _ fuel ih =>
    intro s hl
    cases fuel with
    | zero =>
      have : s = [] := List.length_eq_zero.mp (Nat.le_zero.mp hl)
      rw [this]
      decide
    | succ f =>
      cases s with
      | nil => simp [scanGo]; decide
      | cons c rest =>
        have hr : rest.length ≤ f := by simpa using hl
        cases hst : repStep emptyPat nullRepl (c :: rest) with
        | some p =>
          obtain ⟨out, tail⟩ := p
          have hred : scanGo (repStep emptyPat nullRepl) (f + 1) (c :: rest) =
              out ++ scanGo (repStep emptyPat nullRepl) f tail := by
            simp [scanGo, hst]
          have hout : out = nullRepl ∧ tail = (c :: rest).drop emptyPat.length := by
            simp only [repStep] at hst
            split at hst
            · injection hst with h1
              injection h1 with h2 h3
              exact ⟨h2.symm, h3.symm⟩
            · cases hst
          obtain ⟨ho, htail⟩ := hout
          subst ho htail
          have htl : ((c :: rest).drop emptyPat.length).length ≤ f := by
            simp only [List.length_drop, List.length_cons]
            have : emptyPat.length = 2 := by decide
            omega
          rw [hred, containsSeq_null_append]
          exact ih f (Nat.lt_succ_self f) _ htl
        | none =>
          have hred : scanGo (repStep emptyPat nullRepl) (f + 1) (c :: rest) =
              c :: scanGo (repStep emptyPat nullRepl) f rest := by
            simp [scanGo, hst]
          rw [hred]
          have hih := ih f (Nat.lt_succ_self f) rest hr
          cases hb : emptyPat.isPrefixOf (c :: scanGo (repStep emptyPat nullRepl) f rest) with
          | false => rw [containsSeq_cons_false hb]; exact hih
          | true =>
            exfalso
            simp only [emptyPat, List.isPrefixOf, Bool.and_eq_true, beq_iff_eq] at hb
            obtain ⟨hc, hb2⟩ := hb
            have hhead : (scanGo (repStep emptyPat nullRepl) f rest).head? = some sq :=
              single_prefix_head (by simpa using hb2)
            have hresthead : rest.head? = some sq := emptyStep_head_sq f rest hhead
            have hpre : emptyPat.isPrefixOf (c :: rest) = true := by
              cases rest with
              | nil => simp at hresthead
              | cons d t =>
                simp only [List.head?_cons, Option.some.injEq] at hresthead
                rw [← hc, hresthead]
                simp [emptyPat, List.isPrefixOf]
            rw [repStep, if_pos hpre] at hst
            cases hst

theorem emptyToNull_no_empty (s : List Char) : containsSeq emptyPat (emptyToNull s) = false :=
  emptyScan_no_empty s.length s le_rfl

theorem scanAll_of_step (stepf : List Char → Option (List Char × List Char))
    (hs : ShrinkStep stepf) (s out tail : List Char) (hne : s ≠ [])
    (hst : stepf s = some (out, tail)) : scanAll stepf s = out ++ scanAll stepf tail := by
  cases s with
  | nil => exact absurd rfl hne
  | cons c rest => exact scanAll_cons_some stepf hs hst

/-- Input document of the end-to-end scenario of claim C2: a create-table body
holding a terminator inside a string literal, followed by a further statement. -/
def docC2 : List Char :=
  ctPat ++ (" T (a text DEFAULT ".toList ++ sq :: 'x' :: ';' :: 'y' :: sq :: ");".toList)
    ++ '\n' :: "INSERT INTO X VALUES(2);".toList

/-- Input document of claim C3: a conditional create-table declaration. -/
def docC3 : List Char := ctinePat ++ " T (a int);".toList

/-- Claim C1: for the input file content PRAGMA foo; BEGIN TRANSACTION;
CREATE TABLE T (a int); INSERT INTO T VALUES(quoted 0); COMMIT; (newline
separated), convert_sqlite_to_sqlserver writes an output whose only statement
line is INSERT INTO [T] VALUES(0); immediately followed by the batch-separator
line GO. -/
theorem c1_end_to_end_scenario :
    convert_sqlite_to_sqlserver docC1 =
      "INSERT INTO [T] VALUES(0);".toList ++ '\n' :: goLine := by
  decide

/-- Claim C2 counterexample: on a document whose create-table body holds a
terminator inside a string literal followed by a further statement and a later
terminator, the rule 5 deletion stops at the first terminator: the tail of the
string literal and the whole following insert statement survive, refuting the
claim that the deleted region extends to the last terminator. -/
theorem c2_counterexample :
    deleteCreateTables docC2 =
      'y' :: sq :: (");".toList ++ '\n' :: "INSERT INTO X VALUES(2);".toList) ∧
    containsSeq "INSERT INTO".toList (deleteCreateTables docC2) = true := by
  constructor
  · decide
  · decide

/-- Claim C2 (amended): each create-table deletion of rule 5 removes the text
from an occurrence of CREATE TABLE up to the first following statement
terminator (the match is non-greedy, spanning newlines under DOTALL); the text
after that first terminator is left to the rest of the scan. -/
theorem c2_create_table_delete_nongreedy (mid post : List Char)
    (h : (';' : Char) ∉ mid) :
    deleteCreateTables (ctPat ++ (mid ++ ';' :: post)) = deleteCreateTables post := by
  have hpre : ctPat.isPrefixOf (ctPat ++ (mid ++ ';' :: post)) = true :=
    List.isPrefixOf_iff_prefix.mpr (List.prefix_append _ _)
  have hdrop : (ctPat ++ (mid ++ ';' :: post)).drop ctPat.length = mid ++ ';' :: post :=
    List.drop_left _ _
  have hfind : findStmtEnd true ((ctPat ++ (mid ++ ';' :: post)).drop ctPat.length) =
      some post := by
    rw [hdrop]
    exact findStmtEnd_dotall_through mid post h
  have hst : delStep ctPat true (ctPat ++ (mid ++ ';' :: post)) = some ([], post) := by
    rw [delStep, if_pos hpre, hfind]
  have hne : ctPat ++ (mid ++ ';' :: post) ≠ [] := by
    intro e
    exact (by decide : ctPat ≠ []) (List.append_eq_nil.mp e).1
  have := scanAll_of_step (delStep ctPat true) (shrink_delStep ctPat true (by decide))
    _ [] post hne hst
  simpa [deleteCreateTables, reSubDel] using this

/-- Claim C2 witness: the amended statement applied to the concrete create-table
body of the counterexample document. -/
theorem c2_witness :
    deleteCreateTables (ctPat ++ ((" T (a text DEFAULT ".toList ++ [sq, 'x']) ++
        ';' :: ('y' :: sq :: ");".toList ++ '\n' :: "INSERT INTO X VALUES(2);".toList))) =
      deleteCreateTables ('y' :: sq :: ");".toList ++ '\n' :: "INSERT INTO X VALUES(2);".toList) :=
  c2_create_table_delete_nongreedy _ _ (by decide)

/-- Claim C3 counterexample: on a conditional create-table declaration the
converter with rule 4 and the converter without rule 4 produce different output,
because the rewrite of rule 4 leaves a conditional-existence line that rule 5
does not delete; hence rule 4 is not dead code. -/
theorem c3_counterexample : convert_sqlite_to_sqlserver docC3 ≠ convertNoRule4 docC3 := by
  decide

/-- Claim C3 (amended): rule 4 is not dead code — the counterexample exhibits an
input where enabling it changes the output.  Nevertheless, whenever the document
as it stands after rules 1-3 does not contain the literal CREATE TABLE IF NOT
EXISTS, rule 4 is a no-op: the converter with rule 4 produces the same output as
the converter with rule 4 removed.  (Absence of the literal is sufficient for
agreement, not necessary: a preceding unterminated CREATE TABLE can make rule 5
swallow the rewritten text, so the pipelines may also agree when the literal is
present.) -/
theorem c3_rule4_noop_when_absent (s : List Char)
    (h : containsSeq ctinePat (stripCommit (stripBeginTransaction (stripPragmas s))) = false) :
    convert_sqlite_to_sqlserver s = convertNoRule4 s := by
  have e : rewriteCtIfNotExists (stripCommit (stripBeginTransaction (stripPragmas s))) =
      stripCommit (stripBeginTransaction (stripPragmas s)) := pyReplace_eq_self _ _ _ h
  unfold convert_sqlite_to_sqlserver convertNoRule4 convertLines applySubstitutions
    applySubstitutionsNoRule4
  rw [e]

/-- Claim C3 witness: the amended statement applied to a plain insert document. -/
theorem c3_witness :
    convert_sqlite_to_sqlserver ("INSERT INTO T VALUES(1);".toList) =
      convertNoRule4 ("INSERT INTO T VALUES(1);".toList) :=
  c3_rule4_noop_when_absent _ (by decide)

/-- Claim C4: for every input document, every output line ending with the
statement terminator is immediately followed by a GO line, and no output line is
blank or begins with the comment marker. -/
theorem c4_go_after_terminated_lines (content : List Char) :
    (∀ l ∈ convertLines content, l ≠ [] ∧ dashDash.isPrefixOf l = false) ∧
    (∀ (i : Nat) (l : List Char), (convertLines content)[i]? = some l →
      endsWithSemi l = true → (convertLines content)[i + 1]? = some goLine) := by
  constructor
  · intro l hl
    rcases processLines_mem _ l hl with hg | ⟨x, _, he, hne, hdd⟩
    · subst hg
      exact ⟨by decide, by decide⟩
    · subst he
      refine ⟨?_, hdd⟩
      intro e
      rw [e] at hne
      simp at hne
  · intro i l h hs
    exact processLines_adjacent _ i l h hs

/-- Claim C4 witness: in the converted end-to-end document, the line after the
terminated insert statement is the GO line. -/
theorem c4_witness : (convertLines docC1)[1]? = some goLine :=
  (c4_go_after_terminated_lines docC1).2 0 ("INSERT INTO [T] VALUES(0);".toList)
    (by decide) (by decide)

/-- Claim C5: a standalone quoted zero literal (its occurrence shown is the
first, and the preceding text does not run into it) is replaced by the bare
numeral zero, and likewise the quoted one literal by the bare numeral one; the
scan continues on the rest of the document. -/
theorem c5_bool_literal_rewrite (a b a2 b2 : List Char)
    (h0 : containsSeq zeroPat (a ++ zeroPat.dropLast) = false)
    (h1 : containsSeq onePat (a2 ++ onePat.dropLast) = false) :
    boolZero (a ++ (zeroPat ++ b)) = a ++ ('0' :: boolZero b) ∧
    boolOne (a2 ++ (onePat ++ b2)) = a2 ++ ('1' :: boolOne b2) := by
  constructor
  · have := pyReplace_first_occ zeroPat ['0'] a b (by decide) h0
    simpa [boolZero] using this
  · have := pyReplace_first_occ onePat ['1'] a2 b2 (by decide) h1
    simpa [boolOne] using this

/-- Claim C5 witness: the rewrite applied inside concrete insert statements. -/
theorem c5_witness :
    boolZero ("INSERT INTO [T] VALUES(".toList ++ (zeroPat ++ ");".toList)) =
      "INSERT INTO [T] VALUES(".toList ++ ('0' :: boolZero (");".toList)) ∧
    boolOne ("INSERT INTO [U] VALUES(".toList ++ (onePat ++ ");".toList)) =
      "INSERT INTO [U] VALUES(".toList ++ ('1' :: boolOne (");".toList)) :=
  c5_bool_literal_rewrite _ _ _ _ (by decide) (by decide)

/-- Claim C6: the two-character empty-quote pair is replaced by the literal NULL
token unconditionally: any first occurrence in any context is rewritten with the
scan continuing on the rest, and no empty-quote pair remains anywhere in the
output of the pass. -/
theorem c6_empty_string_to_null :
    (∀ a b : List Char, containsSeq emptyPat (a ++ emptyPat.dropLast) = false →
      emptyToNull (a ++ (emptyPat ++ b)) = a ++ (nullRepl ++ emptyToNull b)) ∧
    (∀ s : List Char, containsSeq emptyPat (emptyToNull s) = false) := by
  constructor
  · intro a b h
    exact pyReplace_first_occ emptyPat nullRepl a b (by decide) h
  · exact emptyToNull_no_empty

/-- Claim C6 witness: the null rewrite applied to a legitimately empty string
value inside a concrete insert statement. -/
theorem c6_witness :
    emptyToNull ("INSERT INTO [T] VALUES(".toList ++ (emptyPat ++ ");".toList)) =
      "INSERT INTO [T] VALUES(".toList ++ (nullRepl ++ emptyToNull (");".toList)) :=
  c6_empty_string_to_null.1 _ _ (by decide)

/-- Claim C7: on a document containing none of the pragma, transaction-begin,
transaction-commit, create-table, create-index or create-unique-index patterns
(such as a line of the converter's own output), the deletion rules 1-7 are a
no-op, so a second pass does not further delete or alter it. -/
theorem c7_second_pass_noop (s : List Char)
    (hp : containsSeq pragmaPat s = false)
    (hb : containsSeq beginPat s = false)
    (hc : containsSeq commitPat s = false)
    (hct : containsSeq ctPat s = false)
    (hci : containsSeq ciPat s = false)
    (hcu : containsSeq cuiPat s = false) :
    deleteCreateUniqueIndexes (deleteCreateIndexes (deleteCreateTables (rewriteCtIfNotExists
      (stripCommit (stripBeginTransaction (stripPragmas s)))))) = s := by
  have hctine : containsSeq ctinePat s = false := by
    cases hq : containsSeq ctinePat s with
    | false => rfl
    | true =>
      have hmono := containsSeq_mono_pat (p := ctPat) (q := ctinePat) (by decide) s hq
      rw [hct] at hmono
      cases hmono
  have e1 : stripPragmas s = s := reSubDel_eq_self _ _ _ hp
  have e2 : stripBeginTransaction s = s := pyReplace_eq_self _ _ _ hb
  have e3 : stripCommit s = s := pyReplace_eq_self _ _ _ hc
  have e4 : rewriteCtIfNotExists s = s := pyReplace_eq_self _ _ _ hctine
  have e5 : deleteCreateTables s = s := reSubDel_eq_self _ _ _ hct
  have e6 : deleteCreateIndexes s = s := reSubDel_eq_self _ _ _ hci
  have e7 : deleteCreateUniqueIndexes s = s := reSubDel_eq_self _ _ _ hcu
  rw [e1, e2, e3, e4, e5, e6, e7]

/-- Claim C7 witness: the deletion rules leave a converted insert line alone. -/
theorem c7_witness :
    deleteCreateUniqueIndexes (deleteCreateIndexes (deleteCreateTables (rewriteCtIfNotExists
      (stripCommit (stripBeginTransaction (stripPragmas ("INSERT INTO [T] VALUES(0);".toList)))))))
      = "INSERT INTO [T] VALUES(0);".toList :=
  c7_second_pass_noop _ (by decide) (by decide) (by decide) (by decide) (by decide) (by decide)

/-- Claim C8 counterexample: on the empty input document the converter completes
and writes an empty output file, refuting the invariant that the output content
is non-empty whenever conversion succeeds. -/
theorem c8_counterexample : convert_sqlite_to_sqlserver [] = [] := by decide

/-- Claim C8 (amended): whenever convert_sqlite_to_sqlserver completes, the
output file exists (the function always writes); its content is non-empty
whenever at least one line survives the line filter, which fails only for
degenerate inputs whose every line is blank or a comment after conversion. -/
theorem c8_nonempty_when_lines_survive (content : List Char)
    (h : convertLines content ≠ []) : convert_sqlite_to_sqlserver content ≠ [] := by
  unfold convert_sqlite_to_sqlserver
  cases hcl : convertLines content with
  | nil => exact absurd hcl h
  | cons l ls =>
    apply joinNl_ne_nil
    have hmem : l ∈ convertLines content := by
      rw [hcl]
      exact List.mem_cons_self _ _
    rcases processLines_mem _ l hmem with hg | ⟨x, _, he, hne, _⟩
    · subst hg
      decide
    · subst he
      intro e
      rw [e] at hne
      simp at hne

/-- Claim C8 witness: the end-to-end document produces non-empty output. -/
theorem c8_witness : convert_sqlite_to_sqlserver docC1 ≠ [] :=
  c8_nonempty_when_lines_survive docC1 (by decide)

/-- Claim C9: import_to_sqlserver returns success exactly when the copy
succeeded and the database client exited with status zero; on non-zero client
exit it prints the captured standard error and returns failure after exactly one
client invocation (no retry); and a failed copy raises immediately, so the
client is never invoked after a failed copy. -/
theorem c9_import_result (copyExit clientExit : Int) (stderr : List Char) :
    ((import_to_sqlserver copyExit clientExit stderr).2 = some true ↔
      copyExit = 0 ∧ clientExit = 0) ∧
    (copyExit = 0 → countRunEv (import_to_sqlserver copyExit clientExit stderr).1 = 1) ∧
    (copyExit = 0 → clientExit ≠ 0 →
      import_to_sqlserver copyExit clientExit stderr =
        ([.printMsg importingMsg, .copyToContainer, .runSqlcmd,
          .printMsg (importFailPre ++ stderr)], some false)) ∧
    (copyExit ≠ 0 →
      import_to_sqlserver copyExit clientExit stderr =
        ([.printMsg importingMsg, .copyToContainer], none) ∧
      countRunEv (import_to_sqlserver copyExit clientExit stderr).1 = 0) := by
  by_cases hcp : copyExit = 0 <;> by_cases hcl : clientExit = 0 <;>
    simp [import_to_sqlserver, countRunEv, hcp, hcl]

/-- Claim C9 witness: a successful copy followed by a failing client run yields
the failure trace with the captured standard error and result false. -/
theorem c9_witness :
    import_to_sqlserver 0 1 ("err".toList) =
      ([.printMsg importingMsg, .copyToContainer, .runSqlcmd,
        .printMsg (importFailPre ++ "err".toList)], some false) :=
  (c9_import_result 0 1 ("err".toList)).2.2.1 rfl (by decide)

/-- Claim C10: every line the converter emits is stripped: no output line begins
or ends with a whitespace character. -/
theorem c10_lines_stripped (content : List Char) :
    ∀ l ∈ convertLines content,
      (∀ c, l.head? = some c → isPySpace c = false) ∧
      (∀ c, l.getLast? = some c → isPySpace c = false) := by
  intro l hl
  rcases processLines_mem _ l hl with hg | ⟨x, _, he, _, _⟩
  · subst hg
    constructor
    · intro c hc
      rw [(by decide : goLine.head? = some 'G')] at hc
      injection hc with h2
      rw [← h2]
      decide
    · intro c hc
      rw [(by decide : goLine.getLast? = some 'O')] at hc
      injection hc with h2
      rw [← h2]
      decide
  · subst he
    exact ⟨fun c hc => pyStrip_head x c hc, fun c hc => pyStrip_getLast x c hc⟩

/-- Claim C10 witness: the first character of the emitted insert line of the
end-to-end document is not whitespace. -/
theorem c10_witness : isPySpace 'I' = false :=
  (c10_lines_stripped docC1 ("INSERT INTO [T] VALUES(0);".toList) (by decide)).1 'I' (by decide)

end MigrateToSqlserver
